import Mathlib

/-!
Shallow embedding of the `journal` repository's data-access layer
(src/journaldb/src/lib.rs, with the TUI read path of src/src/app.rs), and
verification of the specification's claims about it.

The SQLite database held behind `rusqlite::Connection` is modelled as an
explicit record of table contents (`DbState`); each repository operation is a
function from state to state (fallible ones return `Except`).  Modelling
choices, each checked against SQLite semantics:

* Row ids (`INTEGER NOT NULL PRIMARY KEY`, i.e. rowid aliases) are allocated
  as `max existing id + 1` (SQLite's allocation for tables whose largest rowid
  is not `i64::MAX`).  Ids are `Nat`; the Rust code truncates
  `last_insert_rowid()` with `as u32`, which is the identity below `2 ^ 32`,
  the only range the claims concern (hypotheses bound ids where it matters).
* Table scan order is rowid/insertion order, so tables are kept as lists in
  insertion order; `DELETE ... WHERE` is `List.filter` (order-preserving).
* The view `entries_w_tags` inner-joins entries to entry_tags to tags and
  groups by entry id with `group_concat(tags.tag_id, ':')`; checked against
  SQLite 3: output rows are grouped per entry in table order and the
  concatenated tag ids follow the entry_tags scan (insertion) order.  Rows of
  `tags` can never share a `tag_id` (it is the primary key), so the join
  contributes each association at most once, which the model expresses by
  testing tag existence with `List.any`.
* The trigger `update_updated_time` fires on `UPDATE OF entry_title,
  entry_content` when at least one row is updated; its body's
  `WHERE entry_id = entry_id` is a tautology, so it rewrites the updated time
  of every row (confirmed against SQLite 3).
* The trigger `delete_deleted_entry_tags` (AFTER DELETE ON entries) removes
  the deleted entry's associations, and that deletion in turn fires
  `delete_unused_tags` (AFTER DELETE ON entry_tags), which deletes every tag
  with no remaining association.  Chained firing of distinct triggers was
  confirmed against SQLite 3 with the default `recursive_triggers = off`.
  A trigger fires only when its statement actually affected at least one row.
* `strftime('%s', 'now')` is modelled by the `now` field of the state: the
  clock value at the time the statement runs.  No claim depends on the clock
  advancing between statements, so operations leave `now` unchanged.
* Foreign keys are declared but SQLite does not enforce them unless
  `PRAGMA foreign_keys = ON` is issued, which the code never does; the model
  therefore imposes no referential check on `entry_tags` inserts.
* The Rust read path renders tag ids with `group_concat` (standard decimal)
  and re-parses them with `str::split(':')` and `str::parse::<u32>()`; the
  model builds the very same string (`intercalateColon` of decimal digit
  runs) and splits/parses it back (`splitColon`, `parseU32`).
-/

/-- Rows of the `tags` table (`tag_id INTEGER NOT NULL PRIMARY KEY, tag TEXT,
UNIQUE(tag)`). -/
structure TagRow where
  tag_id : Nat
  tag : String
deriving DecidableEq, Repr

/-- Rows of the `entry_tags` table (`entry_id INTEGER, tag_id INTEGER,
UNIQUE(entry_id, tag_id)`). -/
structure EntryTagRow where
  entry_id : Nat
  tag_id : Nat
deriving DecidableEq, Repr

/-- Rows of the `entries` table. -/
structure EntryRow where
  entry_id : Nat
  entry_created_time : Nat
  entry_updated_time : Nat
  entry_title : String
  entry_content : String
deriving DecidableEq, Repr

/-- The Rust struct `Tag` of src/journaldb/src/lib.rs. -/
structure Tag where
  id : Nat
  tag : String
deriving DecidableEq, Repr

/-- Constructor `Tag::new`: id 0 denotes "not yet persisted". -/
def Tag.new (tag : String) : Tag :=
  { id := 0, tag := tag }

/-- The Rust struct `Entry` of src/journaldb/src/lib.rs. -/
structure Entry where
  id : Nat
  created_time : Nat
  updated_time : Nat
  title : String
  content : String
  tags : Option (List Tag)
deriving DecidableEq, Repr

/-- Constructor `Entry::new`. -/
def Entry.new (title content : String) (tags : Option (List Tag)) : Entry :=
  { id := 0, created_time := 0, updated_time := 0,
    title := title, content := content, tags := tags }

/-- The state behind a `Db` value: the three SQLite tables (in rowid /
insertion order), the in-memory snapshot `Db.entries`, and the current value
of the wall clock used by `strftime('%s', 'now')`. -/
structure DbState where
  entries : List EntryRow
  tags : List TagRow
  entry_tags : List EntryTagRow
  snapshot : List Entry
  now : Nat
deriving DecidableEq, Repr

/-- Failure modes surfaced by the modelled operations: an SQLite `UNIQUE`
constraint violation propagated as `rusqlite::Error`, or a Rust panic
(the `unwrap` on the tag-map lookup in the snapshot reload). -/
inductive DbError where
  | uniqueViolation
  | alreadyExists
  | panicMissingTag
deriving DecidableEq, Repr

/-- A fresh `Db` on an empty database file: empty tables, empty snapshot. -/
def initState (now : Nat) : DbState :=
  { entries := [], tags := [], entry_tags := [], snapshot := [], now := now }

/-- Largest entry id present (0 when the table is empty). -/
def maxEntryId (s : DbState) : Nat :=
  (s.entries.map (·.entry_id)).foldr max 0

/-- Largest tag id present (0 when the table is empty). -/
def maxTagId (tags : List TagRow) : Nat :=
  (tags.map (·.tag_id)).foldr max 0

/-- Decimal digit characters of a natural number, most significant first;
fuel-driven so that it is structural (the fuel `n + 1` always suffices).
Mirrors SQLite's decimal rendering of an integer inside `group_concat`. -/
def decCharsCore : Nat → Nat → List Char → List Char
  | 0, _, acc => acc
  | fuel + 1, n, acc =>
    let d := Char.ofNat (48 + n % 10)
    if n < 10 then d :: acc else decCharsCore fuel (n / 10) (d :: acc)

/-- Decimal rendering of a natural number as a character list. -/
def decChars (n : Nat) : List Char :=
  decCharsCore (n + 1) n []

/-- Splitting a character list on ':' exactly as Rust's `str::split(':')`
splits a string: the empty input yields one empty segment, and separators at
the ends yield empty segments. -/
def splitColon : List Char → List (List Char)
  | [] => [[]]
  | c :: cs =>
    if c = ':' then [] :: splitColon cs
    else match splitColon cs with
      | [] => [[c]]
      | s :: ss => (c :: s) :: ss

/-- Joining character lists with ':' — the effect of
`group_concat(tags.tag_id, ':')` on the rendered ids. -/
def intercalateColon : List (List Char) → List Char
  | [] => []
  | [s] => s
  | s :: ss => s ++ ':' :: intercalateColon ss

/-- Rust's `str::parse::<u32>()` on a segment: an optional leading '+', then
one or more ASCII digits, value below `2 ^ 32`; anything else is a parse
error (`none`). -/
def parseU32 (s : List Char) : Option Nat :=
  let digits : List Char := match s with
    | [] => []
    | c :: rest => if c = '+' then rest else c :: rest
  if digits = [] then none
  else if digits.all (·.isDigit) then
    let v := digits.foldl (fun a c => 10 * a + (c.toNat - 48)) 0
    if v < 2 ^ 32 then some v else none
  else none

/-- The tag map assembled by `Db::get_tags`: `SELECT tag_id, tag FROM tags`
inserted row by row into a `HashMap<u32, Tag>` keyed by id, so a later row
with the same id overwrites an earlier one; lookup therefore finds the last
matching row. -/
def tagMapFind (tags : List TagRow) (tid : Nat) : Option Tag :=
  (tags.reverse.find? (fun r => r.tag_id = tid)).map (fun r => { id := r.tag_id, tag := r.tag })

/-- The per-row tag-reconstruction closure of `Db::update_entries` (and of
`get_entries` in src/src/app.rs), applied to the list of segments produced by
`split(':')`: each segment is parsed as a `u32` — on failure the whole
collect is `none` ("no tags") and later segments are not evaluated; on
success the id is looked up in the tag map and the `unwrap` panics when the
lookup misses.  `collect::<Option<Vec<Tag>>>` stops at the first `none`. -/
def collectTags (tm : List TagRow) : List (List Char) → Except DbError (Option (List Tag))
  | [] => .ok (some [])
  | seg :: rest =>
    match parseU32 seg with
    | none => .ok none
    | some tid =>
      match tagMapFind tm tid with
      | none => .error .panicMissingTag
      | some t =>
        match collectTags tm rest with
        | .error e => .error e
        | .ok none => .ok none
        | .ok (some ts) => .ok (some (t :: ts))

/-- The whole closure `|x| if let Ok(tag_id) = x.parse() ...` composed with
the preceding `entry_tags_db.split(':')` — the reconstruction of one entry's
tag list from the view's colon-delimited tag-id string. -/
def reconstructTags (tm : List TagRow) (entry_tags_db : String) : Except DbError (Option (List Tag)) :=
  collectTags tm (splitColon entry_tags_db.data)

/-- One row of the view `entries_w_tags`. -/
structure ViewRow where
  entry_id : Nat
  entry_created_time : Nat
  entry_updated_time : Nat
  entry_title : String
  entry_content : String
  tags : String
deriving DecidableEq, Repr

/-- Tag ids contributed to an entry's group by the join
`entries JOIN entry_tags JOIN tags`: the entry's associations, in entry_tags
scan order, restricted to tag ids that exist in the tags table. -/
def rowTagIds (s : DbState) (eid : Nat) : List Nat :=
  ((s.entry_tags.filter (fun et => et.entry_id = eid ∧ s.tags.any (fun r => r.tag_id = et.tag_id))).map (·.tag_id))

/-- The view `entries_w_tags`: one row per entry that has at least one joined
association, in table order, with the tag ids rendered in decimal and
concatenated with ':'. -/
def dbView (s : DbState) : List ViewRow :=
  s.entries.filterMap (fun r =>
    let tids := rowTagIds s r.entry_id
    if tids = [] then none
    else some { entry_id := r.entry_id,
                entry_created_time := r.entry_created_time,
                entry_updated_time := r.entry_updated_time,
                entry_title := r.entry_title,
                entry_content := r.entry_content,
                tags := String.mk (intercalateColon (tids.map decChars)) })

/-- The row-mapping closure of `Db::update_entries`: reconstruct the tag list
from column 5, then build the `Entry`. -/
def rowToEntry (tm : List TagRow) (r : ViewRow) : Except DbError Entry :=
  match reconstructTags tm r.tags with
  | .error e => .error e
  | .ok entry_tags =>
    .ok { id := r.entry_id,
          created_time := r.entry_created_time,
          updated_time := r.entry_updated_time,
          title := r.entry_title,
          content := r.entry_content,
          tags := entry_tags }

/-- Helper for `Db::update_entries`: map the closure over the view rows.  A
panic aborts the whole reload; the source's `if let Ok(entry) = r` filter
never drops a row because the closure's only failure mode is the panic. -/
def mapRows (tm : List TagRow) : List ViewRow → Except DbError (List Entry)
  | [] => .ok []
  | r :: rs =>
    match rowToEntry tm r with
    | .error e => .error e
    | .ok entry =>
      match mapRows tm rs with
      | .error e => .error e
      | .ok rest => .ok (entry :: rest)

/-- Method `Db::update_entries`: load the tag map, run
`SELECT * FROM entries_w_tags` (no ORDER BY — rows arrive in the view's
grouped table order), rebuild each entry with its tag list, and replace the
in-memory snapshot. -/
def update_entries (s : DbState) : Except DbError DbState :=
  match mapRows s.tags (dbView s) with
  | .error e => .error e
  | .ok entries => .ok { s with snapshot := entries }

/-- Method `Db::create_tag`: `SELECT tag_id FROM tags WHERE tag = ?` takes
the first matching row; if none, `INSERT INTO tags (tag) VALUES (?)` and
return `last_insert_rowid()`.  The insert happens only when no row with this
text exists, so the `UNIQUE(tag)` constraint cannot fire and the operation is
total in the model. -/
def create_tag (s : DbState) (tag : String) : Nat × DbState :=
  match s.tags.find? (fun r => r.tag = tag) with
  | some r => (r.tag_id, s)
  | none =>
    let tid := maxTagId s.tags + 1
    (tid, { s with tags := s.tags ++ [{ tag_id := tid, tag := tag }] })

/-- The tag loop shared by `Db::create_entry` and `Db::edit_entry`: for each
tag, resolve or create it, then `INSERT INTO entry_tags (entry_id, tag_id)`;
the insert propagates a `UNIQUE(entry_id, tag_id)` violation. -/
def insertAssocs (s : DbState) (eid : Nat) : List Tag → Except DbError DbState
  | [] => .ok s
  | t :: ts =>
    let (tid, s1) := create_tag s t.tag
    if s1.entry_tags.any (fun et => et.entry_id = eid ∧ et.tag_id = tid) then
      .error .uniqueViolation
    else
      insertAssocs { s1 with entry_tags := s1.entry_tags ++ [{ entry_id := eid, tag_id := tid }] } eid ts

/-- Method `Db::create_entry`: insert the entry row (the server assigns the
id and both timestamps default to `strftime('%s','now')`), record the
assigned id into the passed entry, insert tags and associations when a tag
list is present, and reload the snapshot.  Returns the updated entry (the
Rust code mutates it through `&mut`) together with the new state. -/
def create_entry (s : DbState) (entry : Entry) : Except DbError (Entry × DbState) :=
  let eid := maxEntryId s + 1
  let row : EntryRow :=
    { entry_id := eid, entry_created_time := s.now, entry_updated_time := s.now,
      entry_title := entry.title, entry_content := entry.content }
  let s1 := { s with entries := s.entries ++ [row] }
  let entry1 := { entry with id := eid }
  let afterTags :=
    match entry1.tags with
    | none => Except.ok s1
    | some tvec => insertAssocs s1 eid tvec
  match afterTags with
  | .error e => .error e
  | .ok s2 =>
    match update_entries s2 with
    | .error e => .error e
    | .ok s3 => .ok (entry1, s3)

/-- The `delete_unused_tags` trigger body:
`DELETE FROM tags WHERE tag_id NOT IN (SELECT tag_id FROM entry_tags)`. -/
def pruneTags (s : DbState) : DbState :=
  { s with tags := s.tags.filter (fun r => s.entry_tags.any (fun et => et.tag_id = r.tag_id)) }

/-- Method `Db::edit_entry`: update title/content (firing the
`update_updated_time` trigger, whose tautological `WHERE entry_id = entry_id`
rewrites every row's updated time, when at least one row was updated); when a
tag list is supplied, delete the entry's associations (firing
`delete_unused_tags` when at least one association was deleted), re-resolve
and re-insert the tags; finally reload the snapshot. -/
def edit_entry (s : DbState) (entry : Entry) : Except DbError DbState :=
  let hit := s.entries.any (fun r => r.entry_id = entry.id)
  let upd := s.entries.map (fun r =>
    if r.entry_id = entry.id then
      { r with entry_title := entry.title, entry_content := entry.content }
    else r)
  let s1 := { s with entries := upd }
  let s2 := if hit then { s1 with entries := s1.entries.map (fun r => { r with entry_updated_time := s.now }) } else s1
  let afterTags :=
    match entry.tags with
    | none => Except.ok s2
    | some tvec =>
      let removedAny := s2.entry_tags.any (fun et => et.entry_id = entry.id)
      let s3 := { s2 with entry_tags := s2.entry_tags.filter (fun et => ¬ et.entry_id = entry.id) }
      let s4 := if removedAny then pruneTags s3 else s3
      insertAssocs s4 entry.id tvec
  match afterTags with
  | .error e => .error e
  | .ok s5 => update_entries s5

/-- Method `Db::delete_entry`: `DELETE FROM entries WHERE entry_id = ?`; when
a row was deleted, the `delete_deleted_entry_tags` trigger removes the
entry's associations, and when that removed at least one association the
chained `delete_unused_tags` trigger prunes orphan tags; then the snapshot is
reloaded. -/
def delete_entry (s : DbState) (entry : Entry) : Except DbError DbState :=
  let hit := s.entries.any (fun r => r.entry_id = entry.id)
  let s1 := { s with entries := s.entries.filter (fun r => ¬ r.entry_id = entry.id) }
  let hadAssoc := s1.entry_tags.any (fun et => et.entry_id = entry.id)
  let s2 :=
    if hit then
      let s1' := { s1 with entry_tags := s1.entry_tags.filter (fun et => ¬ et.entry_id = entry.id) }
      if hadAssoc then pruneTags s1' else s1'
    else s1
  update_entries s2

/-- Method `Db::get_entries`: return (a clone of) the in-memory snapshot. -/
def get_entries (s : DbState) : List Entry :=
  s.snapshot

/-- Modelled from the spec: `Db::get_entry_by_id` is called from
src/journalcli/src/main.rs and src/journalcli/src/util.rs but its definition
is missing from src/journaldb/src/lib.rs.  Spec section 4.3:
"getEntryById(id) -> Entry?: linear lookup in the snapshot; returns absent if
not found." -/
def get_entry_by_id (s : DbState) (entry_id : Nat) : Option Entry :=
  s.snapshot.find? (fun e => e.id = entry_id)

/-- Which schema objects exist in the database file; the subject of the
`CREATE ... IF NOT EXISTS` statements of the two initializers. -/
structure Schema where
  entriesTable : Bool
  tagsTable : Bool
  entryTagsTable : Bool
  viewEntriesWTags : Bool
  updateTimeTrigger : Bool
  deletedEntryTagsTrigger : Bool
  unusedTagsTrigger : Bool
deriving DecidableEq, Repr

/-- A freshly created (empty) database file has no schema objects. -/
def emptySchema : Schema :=
  { entriesTable := false, tagsTable := false, entryTagsTable := false,
    viewEntriesWTags := false, updateTimeTrigger := false,
    deletedEntryTagsTrigger := false, unusedTagsTrigger := false }

/-- Method `Db::initialize_db` of src/journaldb/src/lib.rs: every statement —
three tables, the view, and the three triggers — is guarded by
`IF NOT EXISTS`, so each creates its object when absent and succeeds
unconditionally. -/
def jdb_initialize_db (sc : Schema) : Except DbError Schema :=
  .ok { entriesTable := true, tagsTable := true, entryTagsTable := true,
        viewEntriesWTags := true, updateTimeTrigger := true,
        deletedEntryTagsTrigger := true, unusedTagsTrigger := true }

/-- Function `initialize_db` of src/src/app.rs: the three `CREATE TABLE`
statements carry `IF NOT EXISTS`, but `CREATE VIEW entries_w_tags` and
`CREATE TRIGGER update_updated_time` do not — when the object already exists
the statement fails and the error propagates (the `?` operator). -/
def app_initialize_db (sc : Schema) : Except DbError Schema :=
  let sc1 := { sc with entriesTable := true, tagsTable := true, entryTagsTable := true }
  if sc1.viewEntriesWTags then .error .alreadyExists
  else
    let sc2 := { sc1 with viewEntriesWTags := true }
    if sc2.updateTimeTrigger then .error .alreadyExists
    else .ok { sc2 with updateTimeTrigger := true }

/-- Ordering of the rows of the query in `get_entries` of src/src/app.rs,
which is the view query plus `ORDER BY entry_created_time DESC`: the rows
sorted so that creation times are non-increasing. -/
def sortByCreatedDesc (rows : List ViewRow) : List ViewRow :=
  rows.insertionSort (fun a b => b.entry_created_time ≤ a.entry_created_time)

/-- Function `get_entries` of src/src/app.rs: the same join/group query as
the view but with `ORDER BY entry_created_time DESC`, then the same per-row
tag reconstruction; returns the entry list instead of storing it. -/
def app_get_entries (s : DbState) : Except DbError (List Entry) :=
  mapRows s.tags (sortByCreatedDesc (dbView s))

/-! ### Lemmas: decimal rendering and parsing -/

/-- The folding step of `parseU32`. -/
def parseStep (a : Nat) (c : Char) : Nat :=
  10 * a + (c.toNat - 48)

lemma digitChar_spec (k : Nat) (hk : k < 10) :
    (Char.ofNat (48 + k)).isDigit = true ∧ Char.ofNat (48 + k) ≠ ':' ∧
      Char.ofNat (48 + k) ≠ '+' ∧ (Char.ofNat (48 + k)).toNat = 48 + k := by
  interval_cases k <;> exact ⟨rfl, by decide, by decide, rfl⟩

lemma decCharsCore_spec :
    ∀ (fuel n : Nat) (acc : List Char), n < fuel →
      ∃ ds : List Char,
        decCharsCore fuel n acc = ds ++ acc ∧ ds ≠ [] ∧
        (∀ c ∈ ds, c.isDigit = true ∧ c ≠ ':' ∧ c ≠ '+') ∧
        (∀ a : Nat, List.foldl parseStep a ds = a * 10 ^ ds.length + n) := by
  intro fuel
  induction fuel with
  | zero => intro n acc h; omega
  | succ fuel ih =>
    intro n acc h
    have hd := digitChar_spec (n % 10) (Nat.mod_lt _ (by norm_num))
    by_cases hn : n < 10
    · refine ⟨[Char.ofNat (48 + n % 10)], ?_, by simp, ?_, ?_⟩
      · simp [decCharsCore, hn]
      · intro c hc; simp at hc; subst hc; exact ⟨hd.1, hd.2.1, hd.2.2.1⟩
      · intro a
        simp only [List.foldl_cons, List.foldl_nil, parseStep, hd.2.2.2,
          List.length_cons, List.length_nil, pow_one]
        omega
    · have hrec : n / 10 < fuel := by
        have h1 : n / 10 < n := Nat.div_lt_self (by omega) (by norm_num)
        omega
      obtain ⟨ds, heq, hne, hdig, hfold⟩ := ih (n / 10) (Char.ofNat (48 + n % 10) :: acc) hrec
      refine ⟨ds ++ [Char.ofNat (48 + n % 10)], ?_, by simp, ?_, ?_⟩
      · simp [decCharsCore, hn, heq]
      · intro c hc
        rcases List.mem_append.mp hc with h' | h'
        · exact hdig c h'
        · simp at h'; subst h'; exact ⟨hd.1, hd.2.1, hd.2.2.1⟩
      · intro a
        rw [List.foldl_append]
        simp only [List.foldl_cons, List.foldl_nil, hfold a, parseStep, hd.2.2.2,
          List.length_append, List.length_cons, List.length_nil, pow_succ]
        have h1 : a * (10 ^ ds.length * 10) = a * 10 ^ ds.length * 10 := by ring
        rw [h1]
        generalize a * 10 ^ ds.length = m
        omega

lemma decChars_spec (n : Nat) :
    ∃ ds : List Char,
      decChars n = ds ∧ ds ≠ [] ∧
      (∀ c ∈ ds, c.isDigit = true ∧ c ≠ ':' ∧ c ≠ '+') ∧
      List.foldl parseStep 0 ds = n := by
  obtain ⟨ds, heq, hne, hdig, hfold⟩ := decCharsCore_spec (n + 1) n [] (by omega)
  refine ⟨ds, ?_, hne, hdig, ?_⟩
  · simpa [decChars] using heq
  · simpa using hfold 0

lemma parseU32_decChars (n : Nat) :
    parseU32 (decChars n) = if n < 2 ^ 32 then some n else none := by
  obtain ⟨ds, heq, hne, hdig, hfold⟩ := decChars_spec n
  rw [heq]
  cases ds with
  | nil => exact absurd rfl hne
  | cons c cs =>
    have hplus : c ≠ '+' := (hdig c (by simp)).2.2
    have hall : (c :: cs).all (·.isDigit) = true := by
      rw [List.all_eq_true]; intro x hx; exact (hdig x hx).1
    have hfold' : (c :: cs).foldl (fun a c => 10 * a + (c.toNat - 48)) 0 = n := hfold
    unfold parseU32
    simp only [if_neg hplus, List.cons_ne_nil, hall, if_true, ite_false, hfold']

lemma colon_not_mem_decChars (n : Nat) : ':' ∉ decChars n := by
  obtain ⟨ds, heq, _, hdig, _⟩ := decChars_spec n
  rw [heq]
  intro hmem
  exact (hdig _ hmem).2.1 rfl

lemma decChars_ne_nil (n : Nat) : decChars n ≠ [] := by
  obtain ⟨ds, heq, hne, _, _⟩ := decChars_spec n
  rw [heq]; exact hne

/-! ### Lemmas: split / intercalate round trip -/

lemma splitColon_no_colon (cs : List Char) (h : ':' ∉ cs) : splitColon cs = [cs] := by
  induction cs with
  | nil => rfl
  | cons c cs ih =>
    have hc : c ≠ ':' := fun hc => h (hc ▸ List.mem_cons_self c cs)
    have hcs : ':' ∉ cs := fun hm => h (List.mem_cons_of_mem c hm)
    simp only [splitColon, if_neg hc, ih hcs]

lemma splitColon_append_colon (s r : List Char) (h : ':' ∉ s) :
    splitColon (s ++ ':' :: r) = s :: splitColon r := by
  induction s with
  | nil => simp [splitColon]
  | cons c cs ih =>
    have hc : c ≠ ':' := fun hc => h (hc ▸ List.mem_cons_self c cs)
    have hcs : ':' ∉ cs := fun hm => h (List.mem_cons_of_mem c hm)
    simp only [List.cons_append, splitColon, if_neg hc, List.append_eq, ih hcs]

lemma splitColon_intercalateColon :
    ∀ css : List (List Char), css ≠ [] → (∀ cs ∈ css, ':' ∉ cs) →
      splitColon (intercalateColon css) = css := by
  intro css
  induction css with
  | nil => intro h; exact absurd rfl h
  | cons s ss ih =>
    intro _ hall
    cases ss with
    | nil =>
      simp only [intercalateColon]
      exact splitColon_no_colon s (hall s (by simp))
    | cons s' ss' =>
      have hs : ':' ∉ s := hall s (by simp)
      have : intercalateColon (s :: s' :: ss') = s ++ ':' :: intercalateColon (s' :: ss') := rfl
      rw [this, splitColon_append_colon s _ hs,
        ih (by simp) (fun cs hc => hall cs (List.mem_cons_of_mem s hc))]

/-! ### Lemmas: tag map and tag-list reconstruction -/

lemma tagMapFind_isSome {tags : List TagRow} {tid : Nat}
    (h : ∃ r ∈ tags, r.tag_id = tid) : (tagMapFind tags tid).isSome = true := by
  obtain ⟨r, hr, hid⟩ := h
  have hsome : (tags.reverse.find? (fun x => x.tag_id = tid)).isSome = true := by
    rw [List.find?_isSome]
    exact ⟨r, List.mem_reverse.mpr hr, by simp [hid]⟩
  obtain ⟨x, hx⟩ := Option.isSome_iff_exists.mp hsome
  unfold tagMapFind
  rw [hx]
  rfl

lemma tagMapFind_of_nodup {tags : List TagRow} {r : TagRow}
    (hnd : (tags.map (·.tag_id)).Nodup) (hr : r ∈ tags) :
    tagMapFind tags r.tag_id = some { id := r.tag_id, tag := r.tag } := by
  unfold tagMapFind
  have hsome : (tags.reverse.find? (fun x => x.tag_id = r.tag_id)).isSome = true := by
    rw [List.find?_isSome]
    exact ⟨r, List.mem_reverse.mpr hr, by simp⟩
  obtain ⟨x, hx⟩ := Option.isSome_iff_exists.mp hsome
  have hxmem : x ∈ tags := List.mem_reverse.mp (List.mem_of_find?_eq_some hx)
  have hxid : x.tag_id = r.tag_id := by
    have := List.find?_some hx
    simpa using this
  have hxr : x = r := List.inj_on_of_nodup_map hnd hxmem hr hxid
  rw [hx, hxr]
  rfl

lemma collectTags_no_panic {tm : List TagRow} :
    ∀ segs : List (List Char),
      (∀ seg ∈ segs, ∀ t, parseU32 seg = some t → (tagMapFind tm t).isSome = true) →
      ∃ o, collectTags tm segs = .ok o := by
  intro segs
  induction segs with
  | nil => intro _; exact ⟨some [], rfl⟩
  | cons seg rest ih =>
    intro h
    obtain ⟨o, ho⟩ := ih (fun sg hs => h sg (List.mem_cons_of_mem seg hs))
    cases hp : parseU32 seg with
    | none => exact ⟨none, by simp only [collectTags, hp]⟩
    | some t =>
      have hs := h seg (by simp) t hp
      obtain ⟨tg, htg⟩ := Option.isSome_iff_exists.mp hs
      cases o with
      | none => exact ⟨none, by simp only [collectTags, hp, htg, ho]⟩
      | some ts => exact ⟨some (tg :: ts), by simp only [collectTags, hp, htg, ho]⟩

lemma collectTags_rows {tm : List TagRow} :
    ∀ rows : List TagRow,
      (∀ r ∈ rows, r.tag_id < 2 ^ 32 ∧ tagMapFind tm r.tag_id = some { id := r.tag_id, tag := r.tag }) →
      collectTags tm ((rows.map (·.tag_id)).map decChars) =
        .ok (some (rows.map (fun r => { id := r.tag_id, tag := r.tag }))) := by
  intro rows
  induction rows with
  | nil => intro _; rfl
  | cons r rs ih =>
    intro h
    have hr := h r (by simp)
    have hrest := ih (fun x hx => h x (List.mem_cons_of_mem r hx))
    have hparse : parseU32 (decChars r.tag_id) = some r.tag_id := by
      rw [parseU32_decChars, if_pos hr.1]
    simp only [List.map_cons, collectTags, hparse, hr.2, hrest]

lemma data_mk (l : List Char) : (String.mk l).data = l := rfl

lemma reconstructTags_view {tm : List TagRow} {tids : List Nat} (hne : tids ≠ []) :
    reconstructTags tm (String.mk (intercalateColon (tids.map decChars))) =
      collectTags tm (tids.map decChars) := by
  unfold reconstructTags
  rw [data_mk, splitColon_intercalateColon _ (by simpa using hne)
    (fun cs hcs => by
      obtain ⟨t, _, rfl⟩ := List.mem_map.mp hcs
      exact colon_not_mem_decChars t)]

/-! ### Lemmas: the view and the snapshot reload -/

lemma rowTagIds_exists_tag {s : DbState} {eid t : Nat} (h : t ∈ rowTagIds s eid) :
    ∃ row ∈ s.tags, row.tag_id = t := by
  unfold rowTagIds at h
  obtain ⟨et, hmem, rfl⟩ := List.mem_map.mp h
  rw [List.mem_filter] at hmem
  have := hmem.2
  simp only [decide_eq_true_eq] at this
  obtain ⟨_, hany⟩ := this
  rw [List.any_eq_true] at hany
  obtain ⟨row, hrow, hid⟩ := hany
  exact ⟨row, hrow, by simpa using hid⟩

lemma rowTagIds_exists_assoc {s : DbState} {eid : Nat} (h : rowTagIds s eid ≠ []) :
    ∃ et ∈ s.entry_tags, et.entry_id = eid := by
  unfold rowTagIds at h
  cases hf : s.entry_tags.filter (fun et => decide (et.entry_id = eid ∧ s.tags.any (fun r => r.tag_id = et.tag_id))) with
  | nil => rw [hf] at h; simp at h
  | cons et rest =>
    have hmem : et ∈ s.entry_tags.filter (fun et => decide (et.entry_id = eid ∧ s.tags.any (fun r => r.tag_id = et.tag_id))) := by
      rw [hf]; simp
    rw [List.mem_filter] at hmem
    have := hmem.2
    simp only [decide_eq_true_eq] at this
    exact ⟨et, hmem.1, this.1⟩

lemma mem_dbView {s : DbState} {r : ViewRow} (h : r ∈ dbView s) :
    ∃ er ∈ s.entries, er.entry_id = r.entry_id ∧ rowTagIds s r.entry_id ≠ [] ∧
      r.tags = String.mk (intercalateColon ((rowTagIds s r.entry_id).map decChars)) := by
  unfold dbView at h
  obtain ⟨er, hmem, hf⟩ := List.mem_filterMap.mp h
  by_cases hnil : rowTagIds s er.entry_id = []
  · simp only [hnil, if_pos] at hf
    exact absurd hf (by simp)
  · simp only [if_neg hnil] at hf
    have hid : er.entry_id = r.entry_id := by
      have := congrArg ViewRow.entry_id (Option.some.inj hf)
      simpa using this
    refine ⟨er, hmem, hid, hid ▸ hnil, ?_⟩
    have := congrArg ViewRow.tags (Option.some.inj hf)
    simp at this
    rw [← this, hid]

lemma reconstructTags_of_view {s : DbState} {r : ViewRow} (h : r ∈ dbView s) :
    ∃ o, reconstructTags s.tags r.tags = .ok o := by
  obtain ⟨er, _, hid, hne, htags⟩ := mem_dbView h
  rw [htags, reconstructTags_view hne]
  apply collectTags_no_panic
  intro seg hseg t hp
  obtain ⟨tid, htid, rfl⟩ := List.mem_map.mp hseg
  rw [parseU32_decChars] at hp
  have ht : t = tid := by
    by_cases hlt : tid < 2 ^ 32
    · rw [if_pos hlt] at hp; exact (Option.some.inj hp).symm
    · rw [if_neg hlt] at hp; exact absurd hp (by simp)
  subst ht
  exact tagMapFind_isSome (by
    obtain ⟨row, hrow, hrid⟩ := rowTagIds_exists_tag htid
    exact ⟨row, hrow, hrid⟩)

/-- Field correspondence between a reloaded snapshot entry and its view row. -/
def EntryMatchesRow (e : Entry) (r : ViewRow) : Prop :=
  e.id = r.entry_id ∧ e.created_time = r.entry_created_time ∧
    e.updated_time = r.entry_updated_time ∧ e.title = r.entry_title ∧
    e.content = r.entry_content

lemma mapRows_ok {tm : List TagRow} :
    ∀ rows : List ViewRow,
      (∀ r ∈ rows, ∃ o, reconstructTags tm r.tags = .ok o) →
      ∃ es, mapRows tm rows = .ok es ∧ List.Forall₂ EntryMatchesRow es rows := by
  intro rows
  induction rows with
  | nil => intro _; exact ⟨[], rfl, List.Forall₂.nil⟩
  | cons r rs ih =>
    intro h
    obtain ⟨o, ho⟩ := h r (by simp)
    obtain ⟨es, hes, hrel⟩ := ih (fun x hx => h x (List.mem_cons_of_mem r hx))
    refine ⟨{ id := r.entry_id, created_time := r.entry_created_time,
              updated_time := r.entry_updated_time, title := r.entry_title,
              content := r.entry_content, tags := o } :: es, ?_, ?_⟩
    · simp only [mapRows, rowToEntry, ho, hes]
    · exact List.Forall₂.cons ⟨rfl, rfl, rfl, rfl, rfl⟩ hrel

lemma update_entries_ok (s : DbState) :
    ∃ snap, update_entries s = .ok { s with snapshot := snap } ∧
      List.Forall₂ EntryMatchesRow snap (dbView s) := by
  obtain ⟨es, hes, hrel⟩ := mapRows_ok (dbView s) (fun r hr => reconstructTags_of_view hr)
  refine ⟨es, ?_, hrel⟩
  unfold update_entries
  rw [hes]

/-! ### Lemmas: id allocation and fresh tag insertion -/

lemma foldr_max_append_single (l : List Nat) (x : Nat) :
    List.foldr max 0 (l ++ [x]) = max (List.foldr max 0 l) x := by
  induction l with
  | nil => simp
  | cons a l ih => simp [ih, Nat.max_assoc]

lemma le_maxTagId {tags : List TagRow} {r : TagRow} (h : r ∈ tags) :
    r.tag_id ≤ maxTagId tags := by
  unfold maxTagId
  induction tags with
  | nil => cases h
  | cons a l ih =>
    rcases List.mem_cons.mp h with rfl | h'
    · simp [Nat.le_max_left]
    · simp only [List.map_cons, List.foldr_cons]
      exact le_trans (ih h') (Nat.le_max_right _ _)

lemma maxTagId_append_single (l : List TagRow) (r : TagRow) :
    maxTagId (l ++ [r]) = max (maxTagId l) r.tag_id := by
  unfold maxTagId
  rw [List.map_append, List.map_cons, List.map_nil, foldr_max_append_single]

/-- The rows inserted by a run of tag creations that all miss the lookup:
consecutive ids starting just above `m`. -/
def freshTagRows (m : Nat) : List String → List TagRow
  | [] => []
  | t :: ts => { tag_id := m + 1, tag := t } :: freshTagRows (m + 1) ts

lemma freshTagRows_map_tag : ∀ (m : Nat) (ts : List String),
    (freshTagRows m ts).map (·.tag) = ts := by
  intro m ts
  induction ts generalizing m with
  | nil => rfl
  | cons t ts ih => simp [freshTagRows, ih]

lemma freshTagRows_ids : ∀ (m : Nat) (ts : List String),
    (freshTagRows m ts).map (·.tag_id) = List.range' (m + 1) ts.length := by
  intro m ts
  induction ts generalizing m with
  | nil => rfl
  | cons t ts ih => simp [freshTagRows, List.range'_succ, ih]

lemma freshTagRows_id_bounds {m : Nat} {ts : List String} {r : TagRow}
    (h : r ∈ freshTagRows m ts) : m < r.tag_id ∧ r.tag_id ≤ m + ts.length := by
  have : r.tag_id ∈ (freshTagRows m ts).map (·.tag_id) := List.mem_map_of_mem _ h
  rw [freshTagRows_ids] at this
  rw [List.mem_range'] at this
  omega

lemma forall₂_mem_left {α β : Type} {R : α → β → Prop} :
    ∀ {l₁ : List α} {l₂ : List β}, List.Forall₂ R l₁ l₂ → ∀ a ∈ l₁, ∃ b ∈ l₂, R a b := by
  intro l₁ l₂ h
  induction h with
  | nil => intro a ha; cases ha
  | cons hr _ ih =>
    intro a ha
    rcases List.mem_cons.mp ha with rfl | ha'
    · exact ⟨_, by simp, hr⟩
    · obtain ⟨b, hb, hab⟩ := ih a ha'
      exact ⟨b, List.mem_cons_of_mem _ hb, hab⟩

lemma insertAssocs_fresh :
    ∀ (tgs : List Tag) (s : DbState) (eid : Nat),
      (tgs.map (·.tag)).Nodup →
      (∀ t ∈ tgs, ∀ r ∈ s.tags, r.tag ≠ t.tag) →
      (∀ et ∈ s.entry_tags, et.entry_id = eid → et.tag_id ≤ maxTagId s.tags) →
      insertAssocs s eid tgs =
        .ok { s with
              tags := s.tags ++ freshTagRows (maxTagId s.tags) (tgs.map (·.tag)),
              entry_tags := s.entry_tags ++
                (freshTagRows (maxTagId s.tags) (tgs.map (·.tag))).map
                  (fun r => { entry_id := eid, tag_id := r.tag_id }) } := by
  intro tgs
  induction tgs with
  | nil =>
    intro s eid _ _ _
    simp [insertAssocs, freshTagRows]
  | cons t ts ih =>
    intro s eid hnd habsent hbound
    have hfind : s.tags.find? (fun r => r.tag = t.tag) = none := by
      rw [List.find?_eq_none]
      intro r hr
      simpa using habsent t (by simp) r hr
    have hany : s.entry_tags.any
        (fun et => et.entry_id = eid ∧ et.tag_id = maxTagId s.tags + 1) = false := by
      rw [List.any_eq_false]
      intro et hmem
      simp only [decide_eq_true_eq, not_and]
      intro hid
      have := hbound et hmem hid
      omega
    have hstep : insertAssocs s eid (t :: ts) =
        insertAssocs
          { s with tags := s.tags ++ [{ tag_id := maxTagId s.tags + 1, tag := t.tag }],
                   entry_tags := s.entry_tags ++
                     [{ entry_id := eid, tag_id := maxTagId s.tags + 1 }] } eid ts := by
      simp only [insertAssocs, create_tag, hfind, hany]
      rfl
    rw [hstep]
    have hmax : maxTagId (s.tags ++ [{ tag_id := maxTagId s.tags + 1, tag := t.tag }]) =
        maxTagId s.tags + 1 := by
      rw [maxTagId_append_single]
      simp [Nat.max_eq_right (Nat.le_succ _)]
    rw [ih _ eid (by simpa using hnd.of_cons)
      (by
        intro t' ht' r hr
        rcases List.mem_append.mp hr with h' | h'
        · exact habsent t' (List.mem_cons_of_mem t ht') r h'
        · simp only [List.mem_singleton] at h'
          subst h'
          simp only []
          intro hcontra
          have hne : t.tag ≠ t'.tag := by
            have := hnd
            rw [List.map_cons, List.nodup_cons] at this
            intro heq
            exact this.1 (heq ▸ List.mem_map_of_mem _ ht')
          exact hne hcontra)
      (by
        intro et hmem hid
        rw [hmax]
        rcases List.mem_append.mp hmem with h' | h'
        · exact le_trans (hbound et h' hid) (Nat.le_succ _)
        · simp only [List.mem_singleton] at h'
          subst h'
          simp)]
    rw [hmax]
    simp only [List.map_cons, freshTagRows, List.append_assoc, List.singleton_append]

lemma map_tag_new (texts : List String) : (texts.map Tag.new).map (·.tag) = texts := by
  induction texts with
  | nil => rfl
  | cons t ts ih => simp [Tag.new, ih]

lemma freshTagRows_length (m : Nat) (ts : List String) :
    (freshTagRows m ts).length = ts.length := by
  have := congrArg List.length (freshTagRows_map_tag m ts)
  simpa using this

lemma dbView_single (s : DbState) (r : EntryRow) (h : s.entries = [r])
    (hne : rowTagIds s r.entry_id ≠ []) :
    dbView s = [{ entry_id := r.entry_id,
                  entry_created_time := r.entry_created_time,
                  entry_updated_time := r.entry_updated_time,
                  entry_title := r.entry_title,
                  entry_content := r.entry_content,
                  tags := String.mk (intercalateColon ((rowTagIds s r.entry_id).map decChars)) }] := by
  unfold dbView
  rw [h]
  simp [hne]

lemma mapRows_single (tm : List TagRow) (r : ViewRow) (e : Entry)
    (h : rowToEntry tm r = .ok e) : mapRows tm [r] = .ok [e] := by
  simp [mapRows, h]

/-! ### Claim theorems -/

/-- C1: for every title, content and (nonempty, duplicate-free, fewer than
`2 ^ 32`) tag-text list, creating an entry with those tags on an initialized
empty store and then listing entries returns exactly one entry, whose tag
texts are exactly the supplied texts in the order supplied. -/
theorem create_entry_then_list_single (title content : String) (texts : List String)
    (t0 : Nat) (hne : texts ≠ []) (hnd : texts.Nodup) (hlen : texts.length < 2 ^ 32) :
    ∃ (e : Entry) (s' : DbState) (en : Entry) (tl : List Tag),
      create_entry (initState t0) (Entry.new title content (some (texts.map Tag.new))) =
        .ok (e, s') ∧
      get_entries s' = [en] ∧ en.title = title ∧ en.content = content ∧
      en.tags = some tl ∧ tl.map (·.tag) = texts := by
  set T := freshTagRows 0 texts with hT
  have hTne : T ≠ [] := by
    intro h
    apply hne
    have := freshTagRows_map_tag 0 texts
    rw [← hT, h] at this
    exact this.symm
  set row : EntryRow :=
    { entry_id := 1, entry_created_time := t0, entry_updated_time := t0,
      entry_title := title, entry_content := content } with hrow
  set s2 : DbState :=
    { entries := [row], tags := T,
      entry_tags := T.map (fun r => { entry_id := 1, tag_id := r.tag_id }),
      snapshot := [], now := t0 } with hs2
  have hassoc : insertAssocs
      { entries := [row], tags := [], entry_tags := [], snapshot := [], now := t0 } 1
      (texts.map Tag.new) = .ok s2 := by
    rw [insertAssocs_fresh (texts.map Tag.new) _ 1
      (by rw [map_tag_new]; exact hnd)
      (by intro t _ r hr; cases hr)
      (by intro et h; cases h), map_tag_new]
    rfl
  have hTnodupIds : (T.map (·.tag_id)).Nodup := by
    rw [hT, freshTagRows_ids]
    exact List.nodup_range' _ _
  have htids : rowTagIds s2 1 = T.map (·.tag_id) := by
    unfold rowTagIds
    rw [hs2]
    simp only []
    rw [List.filter_map]
    rw [List.filter_eq_self.mpr (by
      intro r hr
      simp only [Function.comp, decide_eq_true_eq]
      refine ⟨trivial, ?_⟩
      rw [List.any_eq_true]
      exact ⟨r, hr, by simp⟩)]
    rw [List.map_map]
    rfl
  have hTidsNe : T.map (·.tag_id) ≠ [] := by
    intro h
    exact hTne (List.map_eq_nil.mp h)
  have hview : dbView s2 =
      [{ entry_id := 1, entry_created_time := t0, entry_updated_time := t0,
         entry_title := title, entry_content := content,
         tags := String.mk (intercalateColon ((T.map (·.tag_id)).map decChars)) }] := by
    have := dbView_single s2 row rfl (by rw [show row.entry_id = 1 from rfl, htids]; exact hTidsNe)
    rw [this]
    rw [show row.entry_id = 1 from rfl, htids]
  set tl : List Tag := T.map (fun r => { id := r.tag_id, tag := r.tag }) with htl
  have hrec : reconstructTags s2.tags
      (String.mk (intercalateColon ((T.map (·.tag_id)).map decChars))) = .ok (some tl) := by
    rw [reconstructTags_view hTidsNe]
    have : s2.tags = T := rfl
    rw [this]
    exact collectTags_rows T (fun r hr => by
      refine ⟨?_, tagMapFind_of_nodup hTnodupIds hr⟩
      have := freshTagRows_id_bounds (hT ▸ hr)
      omega)
  set en : Entry :=
    { id := 1, created_time := t0, updated_time := t0,
      title := title, content := content, tags := some tl } with hen
  have hupd : update_entries s2 = .ok { s2 with snapshot := [en] } := by
    unfold update_entries
    rw [hview, mapRows_single _ _ en (by
      unfold rowToEntry
      simp only []
      rw [hrec])]
  have hmain : create_entry (initState t0)
      (Entry.new title content (some (texts.map Tag.new))) =
      .ok ({ id := 1, created_time := 0, updated_time := 0,
             title := title, content := content,
             tags := some (texts.map Tag.new) }, { s2 with snapshot := [en] }) := by
    unfold create_entry
    simp only [Entry.new, initState, maxEntryId, List.map_nil, List.foldr_nil,
      List.nil_append, Nat.zero_add]
    rw [hassoc]
    simp only []
    rw [hupd]
  refine ⟨_, _, en, tl, hmain, rfl, rfl, rfl, rfl, ?_⟩
  rw [htl, List.map_map]
  have : ((fun t : Tag => t.tag) ∘ fun r : TagRow => { id := r.tag_id, tag := r.tag : Tag }) =
      fun r : TagRow => r.tag := rfl
  rw [this, hT, freshTagRows_map_tag]

/-- Witness for C1 at the repository's own test input. -/
theorem create_entry_then_list_single_witness :
    ∃ (e : Entry) (s' : DbState) (en : Entry) (tl : List Tag),
      create_entry (initState 50)
          (Entry.new "Test1" "Test Content" (some (["foo", "bar"].map Tag.new))) =
        .ok (e, s') ∧
      get_entries s' = [en] ∧ en.title = "Test1" ∧ en.content = "Test Content" ∧
      en.tags = some tl ∧ tl.map (·.tag) = ["foo", "bar"] :=
  create_entry_then_list_single "Test1" "Test Content" ["foo", "bar"] 50
    (by decide) (by decide) (by decide)

/-- C2: on any state whose tags table satisfies the `UNIQUE(tag)` constraint
for the given text (at most one row), resolving the same text twice returns
the same id both times and leaves exactly one tag row with that text. -/
theorem create_tag_same_text_twice (s : DbState) (t : String)
    (huniq : (s.tags.filter (fun r => r.tag = t)).length ≤ 1) :
    (create_tag s t).1 = (create_tag (create_tag s t).2 t).1 ∧
    ((create_tag (create_tag s t).2 t).2.tags.filter (fun r => r.tag = t)).length = 1 := by
  cases hf : s.tags.find? (fun r => r.tag = t) with
  | some r =>
    have h1 : create_tag s t = (r.tag_id, s) := by
      unfold create_tag; rw [hf]
    rw [h1]
    rw [h1]
    refine ⟨rfl, ?_⟩
    have hmem : r ∈ s.tags := List.mem_of_find?_eq_some hf
    have hpr : r.tag = t := by
      have := List.find?_some hf
      simpa using this
    have hin : r ∈ s.tags.filter (fun r => r.tag = t) :=
      List.mem_filter.mpr ⟨hmem, by simp [hpr]⟩
    have hpos : 0 < (s.tags.filter (fun r => r.tag = t)).length :=
      List.length_pos.mpr (fun h => by rw [h] at hin; cases hin)
    show (s.tags.filter (fun r => r.tag = t)).length = 1
    omega
  | none =>
    set M := maxTagId s.tags with hM
    set row : TagRow := { tag_id := M + 1, tag := t } with hrw
    have h1 : create_tag s t = (M + 1, { s with tags := s.tags ++ [row] }) := by
      unfold create_tag; rw [hf]
    have hfind2 : (s.tags ++ [row]).find? (fun r => r.tag = t) = some row := by
      rw [List.find?_append]
      rw [hf]
      simp [hrw]
    have h2 : create_tag { s with tags := s.tags ++ [row] } t = (M + 1, { s with tags := s.tags ++ [row] }) := by
      unfold create_tag
      simp only []
      rw [hfind2]
    rw [h1, h2]
    refine ⟨rfl, ?_⟩
    simp only []
    rw [List.filter_append]
    rw [List.filter_eq_nil.mpr (by
      intro x hx
      have := List.find?_eq_none.mp hf x hx
      simpa using this)]
    simp [hrw]

/-- Witness for C2 on the empty store and the text of the repository's own
tag test. -/
theorem create_tag_same_text_twice_witness :
    (create_tag (initState 0) "foo").1 = (create_tag (create_tag (initState 0) "foo").2 "foo").1 ∧
    ((create_tag (create_tag (initState 0) "foo").2 "foo").2.tags.filter
      (fun r => r.tag = "foo")).length = 1 :=
  create_tag_same_text_twice (initState 0) "foo" (by decide)

/-- C10: looking up an id that no snapshot entry carries returns `none`; the
lookup is a total linear search, so no error is possible.  (The looked-up
operation is modelled from the spec, since `Db::get_entry_by_id` is absent
from src/journaldb/src/lib.rs.) -/
theorem get_entry_by_id_absent (s : DbState) (entry_id : Nat)
    (h : ∀ e ∈ s.snapshot, e.id ≠ entry_id) :
    get_entry_by_id s entry_id = none := by
  unfold get_entry_by_id
  rw [List.find?_eq_none]
  intro e he
  simp [h e he]

/-- Witness for C10: a snapshot holding entry 1, looked up at id 2. -/
theorem get_entry_by_id_absent_witness :
    get_entry_by_id
      { entries := [], tags := [], entry_tags := [],
        snapshot := [{ id := 1, created_time := 0, updated_time := 0,
                       title := "a", content := "b", tags := none }], now := 0 } 2 = none :=
  get_entry_by_id_absent _ 2 (by decide)

lemma map_entry_id_invariant (l : List EntryRow) (f : EntryRow → EntryRow)
    (h : ∀ r, (f r).entry_id = r.entry_id) :
    (l.map f).map (·.entry_id) = l.map (·.entry_id) := by
  induction l with
  | nil => rfl
  | cons a l ih => simp [h a, ih]

/-- C9: editing an entry whose tag field is absent updates title and content
but leaves the tags table and the association table untouched. -/
theorem edit_entry_no_taglist_frame (s : DbState) (entry : Entry)
    (hnone : entry.tags = none) :
    ∃ s', edit_entry s entry = .ok s' ∧
      s'.tags = s.tags ∧ s'.entry_tags = s.entry_tags ∧
      s'.entries.map (·.entry_id) = s.entries.map (·.entry_id) ∧
      (∀ r ∈ s'.entries, r.entry_id = entry.id →
        r.entry_title = entry.title ∧ r.entry_content = entry.content) := by
  set upd := s.entries.map (fun r =>
    if r.entry_id = entry.id then
      { r with entry_title := entry.title, entry_content := entry.content }
    else r) with hupd
  set s2 : DbState :=
    if s.entries.any (fun r => r.entry_id = entry.id) then
      { s with entries := upd.map (fun r => { r with entry_updated_time := s.now }) }
    else { s with entries := upd } with hs2def
  have key : edit_entry s entry = update_entries s2 := by
    unfold edit_entry
    rw [hnone]
  obtain ⟨snap, hsnap, _⟩ := update_entries_ok s2
  have htg : s2.tags = s.tags := by
    rw [hs2def]; split <;> rfl
  have het : s2.entry_tags = s.entry_tags := by
    rw [hs2def]; split <;> rfl
  have hupdid : upd.map (·.entry_id) = s.entries.map (·.entry_id) := by
    rw [hupd]
    exact map_entry_id_invariant _ _ (fun r => by split <;> rfl)
  have hids : s2.entries.map (·.entry_id) = s.entries.map (·.entry_id) := by
    rw [hs2def]; split
    · simp only []
      rw [map_entry_id_invariant upd (fun r => { r with entry_updated_time := s.now })
        (fun r => rfl), hupdid]
    · simp only []
      rw [hupdid]
  have hPupd : ∀ r ∈ upd, r.entry_id = entry.id →
      r.entry_title = entry.title ∧ r.entry_content = entry.content := by
    intro r hr hid
    rw [hupd] at hr
    obtain ⟨r0, _, rfl⟩ := List.mem_map.mp hr
    by_cases h0 : r0.entry_id = entry.id
    · simp [h0]
    · simp only [if_neg h0] at hid ⊢
      exact absurd hid h0
  have hPs2 : ∀ r ∈ s2.entries, r.entry_id = entry.id →
      r.entry_title = entry.title ∧ r.entry_content = entry.content := by
    intro r hr hid
    rw [hs2def] at hr
    split at hr
    · simp only [] at hr
      obtain ⟨r1, hr1, rfl⟩ := List.mem_map.mp hr
      have := hPupd r1 hr1 hid
      exact this
    · exact hPupd r hr hid
  exact ⟨{ s2 with snapshot := snap }, by rw [key, hsnap], htg, het, hids, hPs2⟩

/-- Witness for C9: a one-entry, one-tag store edited with an absent tag
list. -/
theorem edit_entry_no_taglist_frame_witness :
    ∃ s', edit_entry
        { entries := [{ entry_id := 1, entry_created_time := 5, entry_updated_time := 5,
                        entry_title := "a", entry_content := "b" }],
          tags := [{ tag_id := 1, tag := "t" }],
          entry_tags := [{ entry_id := 1, tag_id := 1 }], snapshot := [], now := 9 }
        { id := 1, created_time := 5, updated_time := 5,
          title := "a2", content := "b2", tags := none } = .ok s' ∧
      s'.tags = [{ tag_id := 1, tag := "t" }] ∧
      s'.entry_tags = [{ entry_id := 1, tag_id := 1 }] ∧
      s'.entries.map (·.entry_id) = [1] ∧
      (∀ r ∈ s'.entries, r.entry_id = 1 →
        r.entry_title = "a2" ∧ r.entry_content = "b2") :=
  edit_entry_no_taglist_frame _ _ rfl

/-- C7: every entry of a reloaded snapshot has at least one association row,
because the read path only sees rows of the inner-join view. -/
theorem snapshot_entry_has_assoc (s s' : DbState) (e : Entry)
    (hupd : update_entries s = .ok s') (he : e ∈ s'.snapshot) :
    ∃ et ∈ s.entry_tags, et.entry_id = e.id := by
  obtain ⟨snap, heq, hrel⟩ := update_entries_ok s
  have hs' : s' = { s with snapshot := snap } := by
    rw [hupd] at heq
    exact Except.ok.inj heq
  rw [hs'] at he
  obtain ⟨r, hr, hmatch⟩ := forall₂_mem_left hrel e he
  obtain ⟨er, hmem, hid, hneTags, _⟩ := mem_dbView hr
  obtain ⟨et, hetmem, hetid⟩ := rowTagIds_exists_assoc hneTags
  exact ⟨et, hetmem, by rw [hetid, ← hmatch.1]⟩

/-- Witness for C7: a one-entry store, its reloaded snapshot entry, and the
association row behind it. -/
theorem snapshot_entry_has_assoc_witness :
    ∃ et ∈ ({ entries := [{ entry_id := 1, entry_created_time := 5, entry_updated_time := 5,
                            entry_title := "a", entry_content := "b" }],
              tags := [{ tag_id := 1, tag := "t" }],
              entry_tags := [{ entry_id := 1, tag_id := 1 }],
              snapshot := [], now := 9 } : DbState).entry_tags,
      et.entry_id = ({ id := 1, created_time := 5, updated_time := 5, title := "a",
                       content := "b", tags := some [{ id := 1, tag := "t" }] } : Entry).id :=
  snapshot_entry_has_assoc
    { entries := [{ entry_id := 1, entry_created_time := 5, entry_updated_time := 5,
                    entry_title := "a", entry_content := "b" }],
      tags := [{ tag_id := 1, tag := "t" }],
      entry_tags := [{ entry_id := 1, tag_id := 1 }], snapshot := [], now := 9 }
    { entries := [{ entry_id := 1, entry_created_time := 5, entry_updated_time := 5,
                    entry_title := "a", entry_content := "b" }],
      tags := [{ tag_id := 1, tag := "t" }],
      entry_tags := [{ entry_id := 1, tag_id := 1 }],
      snapshot := [{ id := 1, created_time := 5, updated_time := 5, title := "a",
                     content := "b", tags := some [{ id := 1, tag := "t" }] }], now := 9 }
    { id := 1, created_time := 5, updated_time := 5, title := "a",
      content := "b", tags := some [{ id := 1, tag := "t" }] }
    rfl (by decide)

/-- C4: deleting an entry that exists and carries exactly the two tags
`t1, t2` — tags no other entry references — removes the entry from the
listing, removes both of its associations, and removes both tag rows. -/
theorem delete_entry_cascades (s : DbState) (entry : Entry) (t1 t2 : Nat)
    (hmem : ∃ er ∈ s.entries, er.entry_id = entry.id)
    (hassoc : (s.entry_tags.filter (fun et => et.entry_id = entry.id)).map (·.tag_id) = [t1, t2])
    (hexcl : ∀ et ∈ s.entry_tags, et.entry_id ≠ entry.id → et.tag_id ≠ t1 ∧ et.tag_id ≠ t2) :
    ∃ s', delete_entry s entry = .ok s' ∧
      (∀ e ∈ get_entries s', e.id ≠ entry.id) ∧
      (∀ et ∈ s'.entry_tags, et.entry_id ≠ entry.id) ∧
      (∀ r ∈ s'.tags, r.tag_id ≠ t1 ∧ r.tag_id ≠ t2) := by
  have hhit : s.entries.any (fun r => r.entry_id = entry.id) = true := by
    rw [List.any_eq_true]
    obtain ⟨er, he, hid⟩ := hmem
    exact ⟨er, he, by simp [hid]⟩
  have hfilne : s.entry_tags.filter (fun et => et.entry_id = entry.id) ≠ [] := by
    intro h
    rw [h] at hassoc
    exact absurd hassoc (by simp)
  have hA : s.entry_tags.any (fun et => et.entry_id = entry.id) = true := by
    cases hf : s.entry_tags.filter (fun et => et.entry_id = entry.id) with
    | nil => exact absurd hf hfilne
    | cons et rest =>
      have hin : et ∈ s.entry_tags.filter (fun et => et.entry_id = entry.id) := by
        rw [hf]; simp
      rw [List.mem_filter] at hin
      rw [List.any_eq_true]
      exact ⟨et, hin.1, hin.2⟩
  set s2 : DbState := pruneTags
    { s with entries := s.entries.filter (fun r => ¬ r.entry_id = entry.id),
             entry_tags := s.entry_tags.filter (fun et => ¬ et.entry_id = entry.id) } with hs2
  have key : delete_entry s entry = update_entries s2 := by
    simp only [delete_entry, hhit, hA, eq_self_iff_true, if_true]
  obtain ⟨snap, hsnap, hrel⟩ := update_entries_ok s2
  refine ⟨{ s2 with snapshot := snap }, by rw [key, hsnap], ?_, ?_, ?_⟩
  · intro e he
    obtain ⟨r, hr, hmr⟩ := forall₂_mem_left hrel e he
    obtain ⟨er, hermem, herid, _, _⟩ := mem_dbView hr
    have : er ∈ s.entries.filter (fun r => ¬ r.entry_id = entry.id) := hermem
    rw [List.mem_filter] at this
    have hne : ¬ er.entry_id = entry.id := by simpa using this.2
    rw [hmr.1, ← herid]
    exact hne
  · intro et hin
    have : et ∈ s.entry_tags.filter (fun et => ¬ et.entry_id = entry.id) := hin
    rw [List.mem_filter] at this
    simpa using this.2
  · intro r hin
    have hin' : r ∈ s.tags.filter (fun r =>
        (s.entry_tags.filter (fun et => ¬ et.entry_id = entry.id)).any
          (fun et => et.tag_id = r.tag_id)) := hin
    rw [List.mem_filter] at hin'
    have hany := hin'.2
    rw [List.any_eq_true] at hany
    obtain ⟨et, hetmem, hetid⟩ := hany
    rw [List.mem_filter] at hetmem
    have h1 : et ∈ s.entry_tags := hetmem.1
    have h2 : ¬ et.entry_id = entry.id := by simpa using hetmem.2
    have h3 := hexcl et h1 h2
    have h4 : et.tag_id = r.tag_id := by simpa using hetid
    constructor
    · rw [← h4]; exact h3.1
    · rw [← h4]; exact h3.2

/-- Witness for C4 at the repository's own delete test: one entry with the
tags DELETE and ME. -/
theorem delete_entry_cascades_witness :
    ∃ s', delete_entry
        { entries := [{ entry_id := 1, entry_created_time := 7, entry_updated_time := 7,
                        entry_title := "TITLE", entry_content := "CONTENT" }],
          tags := [{ tag_id := 1, tag := "DELETE" }, { tag_id := 2, tag := "ME" }],
          entry_tags := [{ entry_id := 1, tag_id := 1 }, { entry_id := 1, tag_id := 2 }],
          snapshot := [], now := 7 }
        { id := 1, created_time := 7, updated_time := 7,
          title := "TITLE", content := "CONTENT", tags := none } = .ok s' ∧
      (∀ e ∈ get_entries s', e.id ≠ 1) ∧
      (∀ et ∈ s'.entry_tags, et.entry_id ≠ 1) ∧
      (∀ r ∈ s'.tags, r.tag_id ≠ 1 ∧ r.tag_id ≠ 2) :=
  delete_entry_cascades _ _ 1 2 (by decide) (by decide) (by decide)

lemma insertAssocs_cons_step (s : DbState) (eid : Nat) (t : Tag) (ts : List Tag)
    (tid : Nat) (s1 : DbState) (h : create_tag s t.tag = (tid, s1))
    (hcond : s1.entry_tags.any (fun et => et.entry_id = eid ∧ et.tag_id = tid) = false) :
    insertAssocs s eid (t :: ts) =
      insertAssocs { s1 with entry_tags := s1.entry_tags ++ [{ entry_id := eid, tag_id := tid }] } eid ts := by
  simp only [insertAssocs, h, hcond]
  simp

lemma create_tag_props (s : DbState) (t : String)
    (hnd : (s.tags.map (·.tag_id)).Nodup) :
    ∃ tid s1, create_tag s t = (tid, s1) ∧
      s1.entries = s.entries ∧ s1.entry_tags = s.entry_tags ∧
      s1.snapshot = s.snapshot ∧ s1.now = s.now ∧
      (∃ r ∈ s1.tags, r.tag_id = tid ∧ r.tag = t) ∧
      (s1.tags.map (·.tag_id)).Nodup ∧
      (∀ r ∈ s.tags, r ∈ s1.tags) ∧
      (∀ r ∈ s1.tags, r ∈ s.tags ∨ r.tag = t) := by
  cases hf : s.tags.find? (fun r => r.tag = t) with
  | some r =>
    refine ⟨r.tag_id, s, by unfold create_tag; rw [hf], rfl, rfl, rfl, rfl, ?_, hnd, fun r h => h, fun r h => Or.inl h⟩
    refine ⟨r, List.mem_of_find?_eq_some hf, rfl, ?_⟩
    have := List.find?_some hf
    simpa using this
  | none =>
    set M := maxTagId s.tags with hM
    refine ⟨M + 1, { s with tags := s.tags ++ [{ tag_id := M + 1, tag := t }] },
      by unfold create_tag; rw [hf], rfl, rfl, rfl, rfl, ?_, ?_, ?_, ?_⟩
    · exact ⟨{ tag_id := M + 1, tag := t }, by simp, rfl, rfl⟩
    · simp only [List.map_append, List.map_cons, List.map_nil]
      rw [List.nodup_append]
      refine ⟨hnd, List.nodup_singleton _, ?_⟩
      intro x hx
      simp only [List.mem_singleton]
      obtain ⟨rx, hrx, rfl⟩ := List.mem_map.mp hx
      have := le_maxTagId hrx
      intro heq
      rw [heq] at this
      simp only [← hM] at this
      omega
    · intro r h; exact List.mem_append.mpr (Or.inl h)
    · intro r h
      rcases List.mem_append.mp h with h' | h'
      · exact Or.inl h'
      · simp only [List.mem_singleton] at h'
        subst h'
        exact Or.inr rfl

lemma edit_retag_core (E : List EntryRow) (tg : List TagRow) (ets : List EntryTagRow)
    (snap : List Entry) (tnow : Nat) (eid t1 t2 : Nat)
    (hT1 : ({ tag_id := t1, tag := "Turkey" } : TagRow) ∈ tg)
    (hT2 : ({ tag_id := t2, tag := "Cheese" } : TagRow) ∈ tg)
    (hexcl : ∀ et ∈ ets, et.entry_id ≠ eid → et.tag_id ≠ t1 ∧ et.tag_id ≠ t2)
    (hndid : (tg.map (·.tag_id)).Nodup)
    (hndtext : (tg.map (·.tag)).Nodup) :
    ∃ s5, insertAssocs (pruneTags
        { entries := E, tags := tg,
          entry_tags := ets.filter (fun et => ¬ et.entry_id = eid),
          snapshot := snap, now := tnow }) eid [Tag.new "chicken", Tag.new "salad"] = .ok s5 ∧
      (s5.entry_tags.filter (fun et => et.entry_id = eid)).length = 2 ∧
      (∀ r ∈ s5.tags, r.tag ≠ "Turkey" ∧ r.tag ≠ "Cheese") := by
  set others := ets.filter (fun et => ¬ et.entry_id = eid) with hoth
  set ptags := tg.filter (fun r => others.any (fun et => et.tag_id = r.tag_id)) with hpt
  have hP : pruneTags
      { entries := E, tags := tg, entry_tags := others,
        snapshot := snap, now := tnow } =
      { entries := E, tags := ptags, entry_tags := others,
        snapshot := snap, now := tnow } := rfl
  have hF3 : ∀ et ∈ others, ¬ et.entry_id = eid := by
    intro et h
    rw [hoth, List.mem_filter] at h
    simpa using h.2
  have hF1 : ∀ r ∈ ptags, r.tag_id ≠ t1 ∧ r.tag_id ≠ t2 := by
    intro r hr
    rw [hpt, List.mem_filter] at hr
    have hany := hr.2
    rw [List.any_eq_true] at hany
    obtain ⟨et, hetmem, hetid⟩ := hany
    have h1 : et ∈ ets := by
      rw [hoth, List.mem_filter] at hetmem
      exact hetmem.1
    have h2 := hexcl et h1 (hF3 et hetmem)
    have h4 : et.tag_id = r.tag_id := by simpa using hetid
    exact ⟨by rw [← h4]; exact h2.1, by rw [← h4]; exact h2.2⟩
  have hsub : ∀ r ∈ ptags, r ∈ tg := by
    intro r hr
    rw [hpt, List.mem_filter] at hr
    exact hr.1
  have hF2 : ∀ r ∈ ptags, r.tag ≠ "Turkey" ∧ r.tag ≠ "Cheese" := by
    intro r hr
    constructor
    · intro heq
      have hr1 : r = { tag_id := t1, tag := "Turkey" } :=
        List.inj_on_of_nodup_map hndtext (hsub r hr) hT1 (by simpa using heq)
      exact (hF1 r hr).1 (by rw [hr1])
    · intro heq
      have hr2 : r = { tag_id := t2, tag := "Cheese" } :=
        List.inj_on_of_nodup_map hndtext (hsub r hr) hT2 (by simpa using heq)
      exact (hF1 r hr).2 (by rw [hr2])
  have hF4 : (ptags.map (·.tag_id)).Nodup := by
    have hsl : List.Sublist (ptags.map (·.tag_id)) (tg.map (·.tag_id)) :=
      (List.filter_sublist _).map _
    exact hndid.sublist hsl
  obtain ⟨c, sB, hc_eq, hE1, hET1, hS1, hN1, ⟨rc, hrcmem, hrcid, hrctag⟩, hnd1, hmono1, hnew1⟩ :=
    create_tag_props
      { entries := E, tags := ptags, entry_tags := others,
        snapshot := snap, now := tnow } "chicken" hF4
  have hET1' : sB.entry_tags = others := hET1
  have hany1 : sB.entry_tags.any (fun et => et.entry_id = eid ∧ et.tag_id = c) = false := by
    rw [hET1', List.any_eq_false]
    intro et h
    simp only [decide_eq_true_eq, not_and]
    intro h1 _
    exact hF3 et h h1
  obtain ⟨sd, sC, hsd_eq, hE2, hET2, hS2, hN2, ⟨rs, hrsmem, hrsid, hrstag⟩, hnd2, hmono2, hnew2⟩ :=
    create_tag_props
      { sB with entry_tags := sB.entry_tags ++ [{ entry_id := eid, tag_id := c }] } "salad" hnd1
  have hcsd : c ≠ sd := by
    intro heq
    have hrc2 : rc ∈ sC.tags := hmono2 rc hrcmem
    have hideq : rc.tag_id = rs.tag_id := by rw [hrcid, hrsid, heq]
    have := List.inj_on_of_nodup_map hnd2 hrc2 hrsmem hideq
    rw [this, hrstag] at hrctag
    exact absurd hrctag (by decide)
  have hET2' : sC.entry_tags = others ++ [{ entry_id := eid, tag_id := c }] := by
    rw [hET2]
    show sB.entry_tags ++ [{ entry_id := eid, tag_id := c }] = _
    rw [hET1']
  have hany2 : sC.entry_tags.any (fun et => et.entry_id = eid ∧ et.tag_id = sd) = false := by
    rw [hET2', List.any_eq_false]
    intro et h
    simp only [decide_eq_true_eq, not_and]
    rcases List.mem_append.mp h with h' | h'
    · intro h1 _
      exact hF3 et h' h1
    · simp only [List.mem_singleton] at h'
      subst h'
      intro _ hbad
      exact hcsd (by simpa using hbad)
  have hstep : insertAssocs
      (pruneTags { entries := E, tags := tg, entry_tags := others,
                   snapshot := snap, now := tnow }) eid
      [Tag.new "chicken", Tag.new "salad"] =
      .ok { sC with entry_tags := sC.entry_tags ++ [{ entry_id := eid, tag_id := sd }] } := by
    rw [hP]
    rw [insertAssocs_cons_step _ eid (Tag.new "chicken") _ c sB hc_eq hany1]
    rw [insertAssocs_cons_step _ eid (Tag.new "salad") _ sd sC hsd_eq hany2]
    rfl
  refine ⟨_, hstep, ?_, ?_⟩
  · have h5 : ({ sC with entry_tags := sC.entry_tags ++ [{ entry_id := eid, tag_id := sd }] } : DbState).entry_tags =
        (others ++ [{ entry_id := eid, tag_id := c }]) ++ [{ entry_id := eid, tag_id := sd }] := by
      show sC.entry_tags ++ [{ entry_id := eid, tag_id := sd }] = _
      rw [hET2']
    rw [h5, List.filter_append, List.filter_append]
    rw [List.filter_eq_nil.mpr (by
      intro et h
      simp only [decide_eq_true_eq]
      exact hF3 et h)]
    simp
  · intro r hr
    have hr5 : r ∈ sC.tags := hr
    rcases hnew2 r hr5 with h' | h'
    · have h'' : r ∈ sB.tags := h'
      rcases hnew1 r h'' with h3 | h3
      · exact hF2 r h3
      · rw [h3]
        exact ⟨by decide, by decide⟩
    · rw [h']
      exact ⟨by decide, by decide⟩

/-- C3: editing an entry whose current tags are exactly the Turkey/Cheese
rows `t1, t2` (referenced by no other entry) to the tag set
chicken/salad leaves exactly two associations on the entry and no tag named
Turkey or Cheese anywhere in storage. -/
theorem edit_entry_retag (s : DbState) (entry : Entry) (t1 t2 : Nat)
    (htags : entry.tags = some [Tag.new "chicken", Tag.new "salad"])
    (hassoc : (s.entry_tags.filter (fun et => et.entry_id = entry.id)).map (·.tag_id) = [t1, t2])
    (hT1 : ({ tag_id := t1, tag := "Turkey" } : TagRow) ∈ s.tags)
    (hT2 : ({ tag_id := t2, tag := "Cheese" } : TagRow) ∈ s.tags)
    (hexcl : ∀ et ∈ s.entry_tags, et.entry_id ≠ entry.id → et.tag_id ≠ t1 ∧ et.tag_id ≠ t2)
    (hndid : (s.tags.map (·.tag_id)).Nodup)
    (hndtext : (s.tags.map (·.tag)).Nodup) :
    ∃ s', edit_entry s entry = .ok s' ∧
      (s'.entry_tags.filter (fun et => et.entry_id = entry.id)).length = 2 ∧
      (∀ r ∈ s'.tags, r.tag ≠ "Turkey" ∧ r.tag ≠ "Cheese") := by
  have hfilne : s.entry_tags.filter (fun et => et.entry_id = entry.id) ≠ [] := by
    intro h
    rw [h] at hassoc
    exact absurd hassoc (by simp)
  have hA : s.entry_tags.any (fun et => et.entry_id = entry.id) = true := by
    cases hf : s.entry_tags.filter (fun et => et.entry_id = entry.id) with
    | nil => exact absurd hf hfilne
    | cons et rest =>
      have hin : et ∈ s.entry_tags.filter (fun et => et.entry_id = entry.id) := by
        rw [hf]; simp
      rw [List.mem_filter] at hin
      rw [List.any_eq_true]
      exact ⟨et, hin.1, hin.2⟩
  cases hhit : s.entries.any (fun r => r.entry_id = entry.id) with
  | true =>
    have key : edit_entry s entry =
        match insertAssocs (pruneTags
          { entries := (s.entries.map (fun r =>
              if r.entry_id = entry.id then
                { r with entry_title := entry.title, entry_content := entry.content }
              else r)).map (fun r => { r with entry_updated_time := s.now }),
            tags := s.tags,
            entry_tags := s.entry_tags.filter (fun et => ¬ et.entry_id = entry.id),
            snapshot := s.snapshot, now := s.now }) entry.id
          [Tag.new "chicken", Tag.new "salad"] with
        | .error e => .error e
        | .ok s5 => update_entries s5 := by
      simp only [edit_entry, htags, hhit, hA, if_true, eq_self_iff_true]
    obtain ⟨s5, hins, hlen, hclean⟩ := edit_retag_core
      ((s.entries.map (fun r =>
          if r.entry_id = entry.id then
            { r with entry_title := entry.title, entry_content := entry.content }
          else r)).map (fun r => { r with entry_updated_time := s.now }))
      s.tags s.entry_tags s.snapshot s.now entry.id t1 t2 hT1 hT2 hexcl hndid hndtext
    rw [hins] at key
    obtain ⟨snap, hsnap, _⟩ := update_entries_ok s5
    refine ⟨{ s5 with snapshot := snap }, ?_, hlen, hclean⟩
    rw [key]
    simp only []
    exact hsnap
  | false =>
    have key : edit_entry s entry =
        match insertAssocs (pruneTags
          { entries := s.entries.map (fun r =>
              if r.entry_id = entry.id then
                { r with entry_title := entry.title, entry_content := entry.content }
              else r),
            tags := s.tags,
            entry_tags := s.entry_tags.filter (fun et => ¬ et.entry_id = entry.id),
            snapshot := s.snapshot, now := s.now }) entry.id
          [Tag.new "chicken", Tag.new "salad"] with
        | .error e => .error e
        | .ok s5 => update_entries s5 := by
      simp only [edit_entry, htags, hhit, hA, if_true, eq_self_iff_true,
        Bool.false_eq_true, if_false]
    obtain ⟨s5, hins, hlen, hclean⟩ := edit_retag_core
      (s.entries.map (fun r =>
          if r.entry_id = entry.id then
            { r with entry_title := entry.title, entry_content := entry.content }
          else r))
      s.tags s.entry_tags s.snapshot s.now entry.id t1 t2 hT1 hT2 hexcl hndid hndtext
    rw [hins] at key
    obtain ⟨snap, hsnap, _⟩ := update_entries_ok s5
    refine ⟨{ s5 with snapshot := snap }, ?_, hlen, hclean⟩
    rw [key]
    simp only []
    exact hsnap

/-- Witness for C3 at the repository's own edit test: one entry tagged
Turkey/Cheese, retagged to chicken/salad. -/
theorem edit_entry_retag_witness :
    ∃ s', edit_entry
        { entries := [{ entry_id := 1, entry_created_time := 7, entry_updated_time := 7,
                        entry_title := "Title!!", entry_content := "content!!" }],
          tags := [{ tag_id := 1, tag := "Turkey" }, { tag_id := 2, tag := "Cheese" }],
          entry_tags := [{ entry_id := 1, tag_id := 1 }, { entry_id := 1, tag_id := 2 }],
          snapshot := [], now := 7 }
        { id := 1, created_time := 7, updated_time := 7, title := "new title!!",
          content := "content!!",
          tags := some [Tag.new "chicken", Tag.new "salad"] } = .ok s' ∧
      (s'.entry_tags.filter (fun et => et.entry_id = 1)).length = 2 ∧
      (∀ r ∈ s'.tags, r.tag ≠ "Turkey" ∧ r.tag ≠ "Cheese") :=
  edit_entry_retag _ _ 1 2 rfl (by decide) (by decide) (by decide) (by decide)
    (by decide) (by decide)

lemma mapRows_ok_forall₂ {tm : List TagRow} :
    ∀ (rows : List ViewRow) (es : List Entry), mapRows tm rows = .ok es →
      List.Forall₂ EntryMatchesRow es rows := by
  intro rows
  induction rows with
  | nil =>
    intro es h
    simp only [mapRows] at h
    cases h
    exact List.Forall₂.nil
  | cons r rs ih =>
    intro es h
    unfold mapRows at h
    cases hre : rowToEntry tm r with
    | error e => rw [hre] at h; cases h
    | ok entry =>
      rw [hre] at h
      cases hm : mapRows tm rs with
      | error e => rw [hm] at h; cases h
      | ok es' =>
        rw [hm] at h
        cases h
        refine List.Forall₂.cons ?_ (ih es' hm)
        unfold rowToEntry at hre
        cases hrec : reconstructTags tm r.tags with
        | error e => rw [hrec] at hre; cases hre
        | ok o =>
          rw [hrec] at hre
          cases hre
          exact ⟨rfl, rfl, rfl, rfl, rfl⟩

lemma forall₂_map_ids {es : List Entry} {rows : List ViewRow}
    (h : List.Forall₂ EntryMatchesRow es rows) :
    es.map (·.id) = rows.map (·.entry_id) := by
  induction h with
  | nil => rfl
  | cons hr _ ih => simp [hr.1, ih]

lemma pairwise_desc_of_forall₂ :
    ∀ {es : List Entry} {rows : List ViewRow},
      List.Forall₂ EntryMatchesRow es rows →
      List.Pairwise (fun a b : ViewRow => b.entry_created_time ≤ a.entry_created_time) rows →
      List.Pairwise (fun a b : Entry => b.created_time ≤ a.created_time) es := by
  intro es rows h
  induction h with
  | nil => intro _; exact List.Pairwise.nil
  | cons hr hrest ih =>
    intro hp
    rw [List.pairwise_cons] at hp ⊢
    refine ⟨?_, ih hp.2⟩
    intro e' he'
    obtain ⟨r', hr', hmr'⟩ := forall₂_mem_left hrest e' he'
    rw [hmr'.2.1, hr.2.1]
    exact hp.1 r' hr'

/-- C5 counterexample: on a store holding an older entry (id 1, created 100)
and a newer one (id 2, created 200), the journaldb snapshot reload
`Db::update_entries` — whose query has no ORDER BY — returns the entries
oldest first, so the snapshot is not ordered by creation time descending. -/
theorem update_entries_not_created_desc :
    (update_entries
      { entries := [{ entry_id := 1, entry_created_time := 100, entry_updated_time := 100,
                      entry_title := "a", entry_content := "x" },
                    { entry_id := 2, entry_created_time := 200, entry_updated_time := 200,
                      entry_title := "b", entry_content := "y" }],
        tags := [{ tag_id := 1, tag := "t" }],
        entry_tags := [{ entry_id := 1, tag_id := 1 }, { entry_id := 2, tag_id := 1 }],
        snapshot := [], now := 300 }).map (fun s' => s'.snapshot.map (·.created_time)) =
      .ok [100, 200] ∧
    ¬ List.Pairwise (fun a b : Nat => b ≤ a) [100, 200] :=
  ⟨rfl, by decide⟩

/-- C5 amended: the TUI read path (`get_entries` of src/src/app.rs, with its
ORDER BY) returns entries ordered by creation time descending, while the
journaldb snapshot reload (`Db::update_entries`, no ORDER BY) returns the
snapshot in view/table order — the entries-table order restricted to entries
with tags — not in creation-descending order. -/
theorem snapshot_order_amended (s : DbState) :
    (∀ l, app_get_entries s = .ok l →
      List.Pairwise (fun a b : Entry => b.created_time ≤ a.created_time) l) ∧
    (∀ s', update_entries s = .ok s' →
      s'.snapshot.map (·.id) = (dbView s).map (·.entry_id)) := by
  constructor
  · intro l hl
    have hrel := mapRows_ok_forall₂ (sortByCreatedDesc (dbView s)) l hl
    haveI hto : IsTotal ViewRow (fun a b => b.entry_created_time ≤ a.entry_created_time) :=
      ⟨fun a b => Nat.le_total b.entry_created_time a.entry_created_time⟩
    haveI htr : IsTrans ViewRow (fun a b => b.entry_created_time ≤ a.entry_created_time) :=
      ⟨fun _ _ _ hab hbc => le_trans hbc hab⟩
    have hsorted := List.sorted_insertionSort
      (fun a b : ViewRow => b.entry_created_time ≤ a.entry_created_time) (dbView s)
    exact pairwise_desc_of_forall₂ hrel hsorted
  · intro s' hupd
    obtain ⟨snap, heq, hrel⟩ := update_entries_ok s
    have hs' : s' = { s with snapshot := snap } := by
      rw [hupd] at heq
      exact Except.ok.inj heq
    rw [hs']
    exact forall₂_map_ids hrel

/-- Witness for the amended C5 at the counterexample store: the TUI path
lists the newer entry first, the journaldb snapshot keeps table order. -/
theorem snapshot_order_amended_witness :
    List.Pairwise (fun a b : Entry => b.created_time ≤ a.created_time)
      [{ id := 2, created_time := 200, updated_time := 200, title := "b", content := "y",
         tags := some [{ id := 1, tag := "t" }] },
       { id := 1, created_time := 100, updated_time := 100, title := "a", content := "x",
         tags := some [{ id := 1, tag := "t" }] }] ∧
    ({ entries := [{ entry_id := 1, entry_created_time := 100, entry_updated_time := 100,
                     entry_title := "a", entry_content := "x" },
                   { entry_id := 2, entry_created_time := 200, entry_updated_time := 200,
                     entry_title := "b", entry_content := "y" }],
       tags := [{ tag_id := 1, tag := "t" }],
       entry_tags := [{ entry_id := 1, tag_id := 1 }, { entry_id := 2, tag_id := 1 }],
       snapshot := [{ id := 1, created_time := 100, updated_time := 100, title := "a",
                      content := "x", tags := some [{ id := 1, tag := "t" }] },
                    { id := 2, created_time := 200, updated_time := 200, title := "b",
                      content := "y", tags := some [{ id := 1, tag := "t" }] }],
       now := 300 } : DbState).snapshot.map (·.id) =
      (dbView
        { entries := [{ entry_id := 1, entry_created_time := 100, entry_updated_time := 100,
                        entry_title := "a", entry_content := "x" },
                      { entry_id := 2, entry_created_time := 200, entry_updated_time := 200,
                        entry_title := "b", entry_content := "y" }],
          tags := [{ tag_id := 1, tag := "t" }],
          entry_tags := [{ entry_id := 1, tag_id := 1 }, { entry_id := 2, tag_id := 1 }],
          snapshot := [], now := 300 }).map (·.entry_id) :=
  ⟨(snapshot_order_amended
      { entries := [{ entry_id := 1, entry_created_time := 100, entry_updated_time := 100,
                      entry_title := "a", entry_content := "x" },
                    { entry_id := 2, entry_created_time := 200, entry_updated_time := 200,
                      entry_title := "b", entry_content := "y" }],
        tags := [{ tag_id := 1, tag := "t" }],
        entry_tags := [{ entry_id := 1, tag_id := 1 }, { entry_id := 2, tag_id := 1 }],
        snapshot := [], now := 300 }).1 _ rfl,
   (snapshot_order_amended
      { entries := [{ entry_id := 1, entry_created_time := 100, entry_updated_time := 100,
                      entry_title := "a", entry_content := "x" },
                    { entry_id := 2, entry_created_time := 200, entry_updated_time := 200,
                      entry_title := "b", entry_content := "y" }],
        tags := [{ tag_id := 1, tag := "t" }],
        entry_tags := [{ entry_id := 1, tag_id := 1 }, { entry_id := 2, tag_id := 1 }],
        snapshot := [], now := 300 }).2 _ rfl⟩

/-- C6: the journaldb initializer (`Db::initialize_db`, every statement
guarded by IF NOT EXISTS) succeeds on any schema and leaves the full schema,
so a second run returns success with the schema unchanged; but the TUI
initializer (`initialize_db` of src/src/app.rs) omits IF NOT EXISTS on its
CREATE VIEW and CREATE TRIGGER, so its second run against the file it just
initialized fails with an object-already-exists error. -/
theorem initializer_rerun :
    (∀ sc : Schema, jdb_initialize_db sc =
      .ok { entriesTable := true, tagsTable := true, entryTagsTable := true,
            viewEntriesWTags := true, updateTimeTrigger := true,
            deletedEntryTagsTrigger := true, unusedTagsTrigger := true }) ∧
    app_initialize_db emptySchema =
      .ok { entriesTable := true, tagsTable := true, entryTagsTable := true,
            viewEntriesWTags := true, updateTimeTrigger := true,
            deletedEntryTagsTrigger := false, unusedTagsTrigger := false } ∧
    app_initialize_db
      { entriesTable := true, tagsTable := true, entryTagsTable := true,
        viewEntriesWTags := true, updateTimeTrigger := true,
        deletedEntryTagsTrigger := false, unusedTagsTrigger := false } =
      .error DbError.alreadyExists :=
  ⟨fun _ => rfl, rfl, rfl⟩

lemma collectTags_all_or_nothing {tm : List TagRow} :
    ∀ segs : List (List Char),
      (∀ seg ∈ segs, (parseU32 seg).all (fun t => (tagMapFind tm t).isSome) = true) →
      ((∃ seg ∈ segs, parseU32 seg = none) → collectTags tm segs = .ok none) ∧
      ((∀ seg ∈ segs, (parseU32 seg).isSome = true) →
        ∃ l, collectTags tm segs = .ok (some l) ∧ l.length = segs.length) := by
  intro segs
  induction segs with
  | nil =>
    intro _
    exact ⟨fun h => absurd h (by simp), fun _ => ⟨[], rfl, rfl⟩⟩
  | cons seg rest ih =>
    intro hres
    obtain ⟨ih1, ih2⟩ := ih (fun sg hs => hres sg (List.mem_cons_of_mem seg hs))
    constructor
    · rintro ⟨bad, hbadmem, hbadnone⟩
      cases hp : parseU32 seg with
      | none => simp only [collectTags, hp]
      | some t =>
        have hall := hres seg (by simp)
        rw [hp] at hall
        simp only [Option.all_some] at hall
        obtain ⟨tg, htg⟩ := Option.isSome_iff_exists.mp hall
        have hbadrest : bad ∈ rest := by
          rcases List.mem_cons.mp hbadmem with rfl | h'
          · rw [hp] at hbadnone; cases hbadnone
          · exact h'
        have := ih1 ⟨bad, hbadrest, hbadnone⟩
        simp only [collectTags, hp, htg, this]
    · intro hall
      have hsome := hall seg (by simp)
      obtain ⟨t, hp⟩ := Option.isSome_iff_exists.mp hsome
      have hallseg := hres seg (by simp)
      rw [hp] at hallseg
      simp only [Option.all_some] at hallseg
      obtain ⟨tg, htg⟩ := Option.isSome_iff_exists.mp hallseg
      obtain ⟨l, hl, hlen⟩ := ih2 (fun sg hs => hall sg (List.mem_cons_of_mem seg hs))
      refine ⟨tg :: l, ?_, by simp [hlen]⟩
      simp only [collectTags, hp, htg, hl]

/-- C8: the per-row tag reconstruction is all-or-nothing.  Provided every
segment that parses resolves in the tag map (always the case for strings the
view produces), a colon-delimited string with any non-parsing segment —
including the empty string — reconstructs to an absent tag field, and a
string all of whose segments parse reconstructs to the full tag list, never
to a partial one. -/
theorem reconstruct_all_or_nothing (tm : List TagRow) (str : String)
    (hres : ∀ seg ∈ splitColon str.data,
      (parseU32 seg).all (fun t => (tagMapFind tm t).isSome) = true) :
    ((∃ seg ∈ splitColon str.data, parseU32 seg = none) →
      reconstructTags tm str = .ok none) ∧
    ((∀ seg ∈ splitColon str.data, (parseU32 seg).isSome = true) →
      ∃ l, reconstructTags tm str = .ok (some l) ∧
        l.length = (splitColon str.data).length) :=
  collectTags_all_or_nothing (splitColon str.data) hres

/-- Witness for C8: with the tag map holding only id 1, the string "1:zz"
(bad second segment) reconstructs to no tags at all, and the string "1"
reconstructs to the full one-element tag list. -/
theorem reconstruct_all_or_nothing_witness :
    reconstructTags [{ tag_id := 1, tag := "x" }] "1:zz" = .ok none ∧
    ∃ l, reconstructTags [{ tag_id := 1, tag := "x" }] "1" = .ok (some l) ∧
      l.length = (splitColon "1".data).length :=
  ⟨(reconstruct_all_or_nothing _ "1:zz" (by decide)).1 (by decide),
   (reconstruct_all_or_nothing _ "1" (by decide)).2 (by decide)⟩
